import Mathlib

set_option maxHeartbeats 1000000
set_option maxRecDepth 4000

/-!
Verification of the zarf component composer and lint/validator pipeline.

The development shallowly embeds the Go sources of the `lint` and `composer`
packages.  The lint source file contains three successive iterations of the
same package; where they differ we embed each relevant iteration separately:

* iteration A (first copy of lint.go): pure check functions taking
  `(component, index)` pairs, `lintComponents` that aborts on a chain-build
  error, schema findings tagged `SevErr`;
* iteration B (validator.go): the `Validator` accumulator with
  `addWarning`/`addError` and `HasErrors`;
* iteration C (third copy of lint.go): node-based check functions,
  `lintComponents` that records a chain-build error as a finding and
  continues, and several finding constructors that leave `Category` unset.

External collaborators (the import-chain builder, the schema engine, the
image-reference parser, YAML templating) are modelled as parameters, so every
theorem quantifies over their behavior.
-/

/-! ### String helpers -/

/-- Substring test on character lists, mirroring Go `strings.Contains`:
true iff `pat` occurs as a contiguous substring of `haystack`. -/
def listContains (haystack pat : List Char) : Bool :=
  match haystack with
  | [] => pat.isEmpty
  | c :: t => pat.isPrefixOf (c :: t) || listContains t pat

/-- Go `strings.Contains(s, pat)`. -/
def strContains (s pat : String) : Bool :=
  listContains s.data pat.data

/-- Decimal digits of `n`, least significant first, with explicit fuel so the
definition is structurally recursive (the fuel `n + 1` always suffices). -/
def natToDecAux : Nat → Nat → List Char
  | 0, _ => []
  | fuel + 1, n =>
    if n < 10 then [Nat.digitChar n]
    else Nat.digitChar (n % 10) :: natToDecAux fuel (n / 10)

/-- Decimal rendering of a natural number, mirroring Go `fmt.Sprintf("%d", n)`. -/
def natToDec (n : Nat) : String :=
  ⟨(natToDecAux (n + 1) n).reverse⟩

/-- Numeric value of a decimal digit character. -/
def digitVal (c : Char) : Nat := c.toNat - 48

/-- Value of a least-significant-first decimal digit list. -/
def decValLE : List Char → Nat
  | [] => 0
  | c :: r => digitVal c + 10 * decValLE r

/-- ASCII word character, as in Go RE2 `\b` and `\w`: letter, digit or `_`. -/
def isWordChar (c : Char) : Bool := c.isAlpha || c.isDigit || c = '_'

/-- Whether a position (given as the remaining suffix) is a word boundary on
its left side: end of string or a non-word character. -/
def boundaryOk : List Char → Bool
  | [] => true
  | c :: _ => !isWordChar c

/-- Scanner for Go `regexp.MustCompile("(\\b\\d+\\b)").ReplaceAllString(s, "[$1]")`:
a maximal digit run whose two neighbours are non-word characters (or the
string ends) is wrapped in brackets.  `prevWord` records whether the previous
character is a word character; fuel makes the recursion structural. -/
def wrapRunsAux : Nat → Bool → List Char → List Char
  | 0, _, _ => []
  | _ + 1, _, [] => []
  | fuel + 1, prevWord, c :: rest =>
    if c.isDigit && !prevWord then
      if boundaryOk (rest.dropWhile Char.isDigit) then
        '[' :: ((c :: rest.takeWhile Char.isDigit) ++
          ']' :: wrapRunsAux fuel true (rest.dropWhile Char.isDigit))
      else
        (c :: rest.takeWhile Char.isDigit) ++
          wrapRunsAux fuel true (rest.dropWhile Char.isDigit)
    else
      c :: wrapRunsAux fuel (isWordChar c) rest

/-- Bracket every standalone digit run (see `wrapRunsAux`). -/
def wrapRuns (prevWord : Bool) (l : List Char) : List Char :=
  wrapRunsAux (l.length + 1) prevWord l

/-! ### Data model (src/types, embedded verbatim for the fields the lint and
composer code reads) -/

/-- `types.ZarfComponentOnlyCluster`. -/
structure ZarfComponentOnlyCluster where
  architecture : String := ""
  deriving DecidableEq

/-- `types.ZarfComponentOnlyTarget`. -/
structure ZarfComponentOnlyTarget where
  localOS : String := ""
  cluster : ZarfComponentOnlyCluster := {}
  flavor : String := ""
  deriving DecidableEq

/-- `types.ZarfComponentImport` (fields read by lint/composer). -/
structure ZarfComponentImport where
  name : String := ""
  path : String := ""
  url : String := ""
  deriving DecidableEq

/-- `types.ZarfFile` (fields read by lint). -/
structure ZarfFile where
  source : String := ""
  shasum : String := ""
  deriving DecidableEq

/-- `types.ZarfComponent` (fields read by lint/composer; `importDef` embeds
the Go field `Import`, whose name is a Lean keyword). -/
structure ZarfComponent where
  name : String := ""
  only : ZarfComponentOnlyTarget := {}
  importDef : ZarfComponentImport := {}
  images : List String := []
  repos : List String := []
  files : List ZarfFile := []
  deriving DecidableEq

/-- `types.ZarfMetadata` (fields read by lint/composer, plus representative
user-facing fields for the frame-effect claim). -/
structure ZarfMetadata where
  name : String := ""
  description : String := ""
  version : String := ""
  architecture : String := ""
  yolo : Bool := false
  deriving DecidableEq

/-- `types.ZarfBuildData` (opaque to the composer except for being passed to
the migrator; representative fields). -/
structure ZarfBuildData where
  terminal : String := ""
  user : String := ""
  architecture : String := ""
  migrations : List String := []
  deriving DecidableEq

/-- `variables.InteractiveVariable` (name is all the embedded code reads). -/
structure InteractiveVariable where
  name : String := ""
  default : String := ""
  deriving DecidableEq

/-- `variables.Constant`. -/
structure Constant where
  name : String := ""
  value : String := ""
  deriving DecidableEq

/-- `types.ZarfPackage`. -/
structure ZarfPackage where
  kind : String := ""
  metadata : ZarfMetadata := {}
  build : ZarfBuildData := {}
  components : List ZarfComponent := []
  constants : List Constant := []
  «variables» : List InteractiveVariable := []
  deriving DecidableEq

/-- Modelled from the spec: `types.Severity` (src/types is not under src/);
an int-valued severity whose explicitly-numbered mirror in validator.go is
`CategoryError = 1`, `CategoryWarning = 2`; the Go zero value 0 means the
`Category` field of a composite literal was left unset. -/
def sevErr : Nat := 1

/-- Warning severity, see `sevErr`. -/
def sevWarn : Nat := 2

/-- `types.PackageError` (iterations A and C); unset fields default to the Go
zero values. -/
structure PackageError where
  yqPath : String := ""
  description : String := ""
  item : String := ""
  packageNameOverride : String := ""
  packagePathOverride : String := ""
  category : Nat := 0
  deriving DecidableEq

/-- One schema violation as surfaced by the gojsonschema engine (its `Field()`
and `Description()` accessors). -/
structure SchemaErr where
  field : String := ""
  description : String := ""
  deriving DecidableEq

/-- `composer.Node`: one link of an import chain, carrying the resolved
component, the index of the originating top-level component, and provenance. -/
structure Node where
  zarfComponent : ZarfComponent := {}
  index : Nat := 0
  importLocation : String := ""
  originalPackageName : String := ""
  deriving DecidableEq

/-- Modelled from the spec: `types.ZarfPackageTemplatePrefix`, the current
placeholder prefix `###ZARF_PKG_TMPL_` (src/types is not under src/; the
literal appears in the lint tests). -/
def zarfPackageTemplateMarker : String := "###ZARF_PKG_TMPL_"

/-- Modelled from the spec: `types.ZarfPackageVariablePrefix`, the deprecated
placeholder prefix `###ZARF_PKG_VAR_`. -/
def zarfPackageVariableMarker : String := "###ZARF_PKG_VAR_"

/-- Modelled from the spec: `composer.CompatibleComponent` (the composer file
holding it is not under src/).  Per spec §4.1 a component is compatible when
its `only.cluster.architecture` is empty or equals the target architecture and
its `only.flavor` is empty or equals the target flavor. -/
def compatibleComponent (c : ZarfComponent) (arch flavor : String) : Bool :=
  (c.only.cluster.architecture = "" || c.only.cluster.architecture = arch) &&
    (c.only.flavor = "" || c.only.flavor = flavor)

/-- Modelled from the spec: `helpers.IsURL` (external library); a source is
remote when it carries a scheme separator. -/
def isURL (s : String) : Bool := strContains s "://"

/-- Result of `transform.ParseImageRef`: the parsed image with its digest
component (only the digest is read by lint). -/
structure ImageRef where
  reference : String := ""
  digest : String := ""
  deriving DecidableEq

/-- The external collaborators of the lint loops, passed explicitly so the
theorems quantify over their behavior: `config.GetArch`,
`composer.NewImportChain` (returning the chain built so far plus an optional
error, as the Go function does), `utils.ReloadYamlTemplate` with the template
map fixed, and `transform.ParseImageRef`. -/
structure LintOps where
  getArch : String → String
  newImportChain : ZarfComponent → Nat → String → String → String → List Node × Option String
  reloadYamlTemplate : ZarfComponent → Except String ZarfComponent
  parseImageRef : String → Except String ImageRef

/-! ### Lint, iteration A (first copy of lint.go): pure check functions over
`(component, index)` pairs -/

/-- `isPinnedImage` (identical in all three iterations): parse failures on
templated references count as pinned; otherwise pinned iff the digest is
non-empty.  Returns the Go pair `(bool, error)`. -/
def isPinnedImage (parse : String → Except String ImageRef) (image : String) :
    Bool × Option String :=
  match parse image with
  | .error e =>
    if strContains image zarfPackageTemplateMarker ||
        strContains image zarfPackageVariableMarker then
      (true, none)
    else
      (false, some e)
  | .ok t => (decide (t.digest ≠ ""), none)

/-- `isPinnedRepo`: a repo reference is pinned iff it contains an `@`. -/
def isPinnedRepo (repo : String) : Bool :=
  strContains repo "@"

/-- The yq locator `.components.[i].repos.[j]`. -/
def repoYqPath (i j : Nat) : String :=
  ".components.[" ++ natToDec i ++ "].repos.[" ++ natToDec j ++ "]"

/-- The yq locator `.components.[i].images.[j]`. -/
def imageYqPath (i j : Nat) : String :=
  ".components.[" ++ natToDec i ++ "].images.[" ++ natToDec j ++ "]"

/-- The yq locator `.components.[i].files.[j]`. -/
def fileYqPath (i j : Nat) : String :=
  ".components.[" ++ natToDec i ++ "].files.[" ++ natToDec j ++ "]"

/-- The yq locator `.components.[i].import.path`. -/
def importPathYqPath (i : Nat) : String :=
  ".components.[" ++ natToDec i ++ "].import.path"

/-- The yq locator `.components.[i].import.url`. -/
def importURLYqPath (i : Nat) : String :=
  ".components.[" ++ natToDec i ++ "].import.url"

/-- The finding appended by `checkForUnpinnedRepos` for entry `j`. -/
def unpinnedRepoFinding (i j : Nat) (repo : String) : PackageError :=
  { yqPath := repoYqPath i j
    description := "Unpinned repository"
    item := repo
    category := sevWarn }

/-- Loop body of `checkForUnpinnedRepos` (iteration A), with `j` the running
index of `for j, repo := range c.Repos`. -/
def checkForUnpinnedReposGo (i : Nat) : Nat → List String → List PackageError
  | _, [] => []
  | j, repo :: rest =>
    (if isPinnedRepo repo then [] else [unpinnedRepoFinding i j repo]) ++
      checkForUnpinnedReposGo i (j + 1) rest

/-- `checkForUnpinnedRepos` (iteration A). -/
def checkForUnpinnedRepos (c : ZarfComponent) (i : Nat) : List PackageError :=
  checkForUnpinnedReposGo i 0 c.repos

/-- Loop body of `checkForUnpinnedImages` (iteration A): a parse error yields
a "Failed to parse image reference" Warning and skips the pin check;
otherwise an unpinned image yields an "Image not pinned with digest" Warning. -/
def checkForUnpinnedImagesGo (parse : String → Except String ImageRef) (i : Nat) :
    Nat → List String → List PackageError
  | _, [] => []
  | j, image :: rest =>
    (match isPinnedImage parse image with
     | (_, some _) =>
       [{ yqPath := imageYqPath i j
          description := "Failed to parse image reference"
          item := image
          category := sevWarn }]
     | (true, none) => []
     | (false, none) =>
       [{ yqPath := imageYqPath i j
          description := "Image not pinned with digest"
          item := image
          category := sevWarn }]) ++
      checkForUnpinnedImagesGo parse i (j + 1) rest

/-- `checkForUnpinnedImages` (iteration A). -/
def checkForUnpinnedImages (parse : String → Except String ImageRef)
    (c : ZarfComponent) (i : Nat) : List PackageError :=
  checkForUnpinnedImagesGo parse i 0 c.images

/-- Loop body of `checkForUnpinnedFiles` (iteration A): a remote file without
a shasum yields a "No shasum for remote file" Warning. -/
def checkForUnpinnedFilesGo (i : Nat) : Nat → List ZarfFile → List PackageError
  | _, [] => []
  | j, file :: rest =>
    (if file.shasum = "" && isURL file.source then
       [{ yqPath := fileYqPath i j
          description := "No shasum for remote file"
          item := file.source
          category := sevWarn }]
     else []) ++
      checkForUnpinnedFilesGo i (j + 1) rest

/-- `checkForUnpinnedFiles` (iteration A). -/
def checkForUnpinnedFiles (c : ZarfComponent) (i : Nat) : List PackageError :=
  checkForUnpinnedFilesGo i 0 c.files

/-- `checkComponent` (iteration A): repos, then images, then files. -/
def checkComponent (parse : String → Except String ImageRef)
    (c : ZarfComponent) (i : Nat) : List PackageError :=
  checkForUnpinnedRepos c i ++ checkForUnpinnedImages parse c i ++
    checkForUnpinnedFiles c i

/-- `checkForVarInComponentImport` (iteration A): flags the current template
prefix appearing in `import.path` or `import.url`. -/
def checkForVarInComponentImport (c : ZarfComponent) (i : Nat) : List PackageError :=
  (if strContains c.importDef.path zarfPackageTemplateMarker then
     [{ yqPath := importPathYqPath i
        description := "Zarf does not evaluate variables at component.x.import.path"
        item := c.importDef.path
        category := sevWarn }]
   else []) ++
    (if strContains c.importDef.url zarfPackageTemplateMarker then
       [{ yqPath := importURLYqPath i
          description := "Zarf does not evaluate variables at component.x.import.url"
          item := c.importDef.url
          category := sevWarn }]
     else [])

/-- `makeFieldPathYqCompat` (identical in all iterations): `"(root)"` is kept
as is; otherwise every standalone integer run is bracketed (RE2
`(\b\d+\b)` → `[$1]`) and a leading dot is prepended. -/
def makeFieldPathYqCompat (field : String) : String :=
  if field = "(root)" then field
  else ⟨'.' :: wrapRuns false field.data⟩

/-- `validateSchema` (iteration A), parameterised by the outcome of
`runSchema` (the gojsonschema engine): every schema violation becomes a
finding with `Category: types.SevErr`. -/
def validateSchemaA (schemaResult : Except String (List SchemaErr)) :
    Except String (List PackageError) :=
  match schemaResult with
  | .error e => .error e
  | .ok errs =>
    .ok (errs.map fun se =>
      { yqPath := makeFieldPathYqCompat se.field
        description := se.description
        category := sevErr })

/-- Node loop of `lintComponents` (iteration A): per node, import-template
check on the untemplated component, then `ReloadYamlTemplate`, then
`checkComponent`, then provenance overrides; a template error aborts. -/
def lintNodesA (ops : LintOps) : List Node → Except String (List PackageError)
  | [] => .ok []
  | node :: rest =>
    let component := node.zarfComponent
    let nodeErrs := checkForVarInComponentImport component node.index
    match ops.reloadYamlTemplate component with
    | .error e => .error e
    | .ok component2 =>
      let nodeErrs2 := nodeErrs ++ checkComponent ops.parseImageRef component2 node.index
      let tagged := nodeErrs2.map fun f =>
        { f with packagePathOverride := node.importLocation
                 packageNameOverride := node.originalPackageName }
      match lintNodesA ops rest with
      | .error e => .error e
      | .ok restErrs => .ok (tagged ++ restErrs)

/-- Component loop of `lintComponents` (iteration A): incompatible components
are skipped; a chain-build error is returned immediately (`return nil, err`),
aborting the remaining components. -/
def lintComponentsAGo (ops : LintOps) (name arch flavor : String) :
    Nat → List ZarfComponent → Except String (List PackageError)
  | _, [] => .ok []
  | i, c :: rest =>
    if compatibleComponent c arch flavor = false then
      lintComponentsAGo ops name arch flavor (i + 1) rest
    else
      let r := ops.newImportChain c i name arch flavor
      match r.2 with
      | some e => .error e
      | none =>
        match lintNodesA ops r.1 with
        | .error e => .error e
        | .ok nodeErrs =>
          match lintComponentsAGo ops name arch flavor (i + 1) rest with
          | .error e => .error e
          | .ok restErrs => .ok (nodeErrs ++ restErrs)

/-- `lintComponents` (iteration A, lint.go lines 63-99). -/
def lintComponentsA (ops : LintOps) (pkg : ZarfPackage) (flavor : String) :
    Except String (List PackageError) :=
  lintComponentsAGo ops pkg.metadata.name (ops.getArch pkg.metadata.architecture)
    flavor 0 pkg.components

/-! ### Lint, iteration C (third copy of lint.go): node-based check functions;
a chain-build error becomes a finding and the loop continues -/

/-- `checkForVarInComponentImport` (iteration C, node-based): like iteration
A but with provenance overrides filled in and no `Category` set. -/
def checkForVarInComponentImportNode (node : Node) : List PackageError :=
  (if strContains node.zarfComponent.importDef.path zarfPackageTemplateMarker then
     [{ yqPath := importPathYqPath node.index
        packagePathOverride := node.importLocation
        packageNameOverride := node.originalPackageName
        description := "Zarf does not evaluate variables at component.x.import.path"
        item := node.zarfComponent.importDef.path }]
   else []) ++
    (if strContains node.zarfComponent.importDef.url zarfPackageTemplateMarker then
       [{ yqPath := importURLYqPath node.index
          packagePathOverride := node.importLocation
          packageNameOverride := node.originalPackageName
          description := "Zarf does not evaluate variables at component.x.import.url"
          item := node.zarfComponent.importDef.url }]
     else [])

/-- Loop body of `checkForUnpinnedRepos` (iteration C). -/
def checkForUnpinnedReposNodeGo (node : Node) : Nat → List String → List PackageError
  | _, [] => []
  | j, repo :: rest =>
    (if isPinnedRepo repo then []
     else
       [{ yqPath := repoYqPath node.index j
          packagePathOverride := node.importLocation
          packageNameOverride := node.originalPackageName
          description := "Unpinned repository"
          item := repo
          category := sevWarn }]) ++
      checkForUnpinnedReposNodeGo node (j + 1) rest

/-- `checkForUnpinnedRepos` (iteration C, node-based). -/
def checkForUnpinnedReposNode (node : Node) : List PackageError :=
  checkForUnpinnedReposNodeGo node 0 node.zarfComponent.repos

/-- Loop body of `checkForUnpinnedImages` (iteration C): a parse failure is
an "Invalid image reference" with `Category: types.SevErr`. -/
def checkForUnpinnedImagesNodeGo (parse : String → Except String ImageRef)
    (node : Node) : Nat → List String → List PackageError
  | _, [] => []
  | j, image :: rest =>
    (match isPinnedImage parse image with
     | (_, some _) =>
       [{ yqPath := imageYqPath node.index j
          packagePathOverride := node.importLocation
          packageNameOverride := node.originalPackageName
          description := "Invalid image reference"
          item := image
          category := sevErr }]
     | (true, none) => []
     | (false, none) =>
       [{ yqPath := imageYqPath node.index j
          packagePathOverride := node.importLocation
          packageNameOverride := node.originalPackageName
          description := "Image not pinned with digest"
          item := image
          category := sevWarn }]) ++
      checkForUnpinnedImagesNodeGo parse node (j + 1) rest

/-- `checkForUnpinnedImages` (iteration C, node-based). -/
def checkForUnpinnedImagesNode (parse : String → Except String ImageRef)
    (node : Node) : List PackageError :=
  checkForUnpinnedImagesNodeGo parse node 0 node.zarfComponent.images

/-- Loop body of `checkForUnpinnedFiles` (iteration C; no `Category` set). -/
def checkForUnpinnedFilesNodeGo (node : Node) : Nat → List ZarfFile → List PackageError
  | _, [] => []
  | j, file :: rest =>
    (if file.shasum = "" && isURL file.source then
       [{ yqPath := fileYqPath node.index j
          packagePathOverride := node.importLocation
          packageNameOverride := node.originalPackageName
          description := "No shasum for remote file"
          item := file.source }]
     else []) ++
      checkForUnpinnedFilesNodeGo node (j + 1) rest

/-- `checkForUnpinnedFiles` (iteration C, node-based). -/
def checkForUnpinnedFilesNode (node : Node) : List PackageError :=
  checkForUnpinnedFilesNodeGo node 0 node.zarfComponent.files

/-- `lintComponent` (iteration C): repos, then images, then files. -/
def lintComponentNode (parse : String → Except String ImageRef)
    (node : Node) : List PackageError :=
  checkForUnpinnedReposNode node ++ checkForUnpinnedImagesNode parse node ++
    checkForUnpinnedFilesNode node

/-- Node loop of `lintComponents` (iteration C): import-template check then
`lintComponent`, per node. -/
def lintNodesC (parse : String → Except String ImageRef) :
    List Node → List PackageError
  | [] => []
  | node :: rest =>
    checkForVarInComponentImportNode node ++ lintComponentNode parse node ++
      lintNodesC parse rest

/-- The `badImportYqPath` computed by iteration C's `lintComponents` from the
head of the chain: the import.path locator when `Import.Path` is set,
otherwise the import.url locator when `Import.URL` is set, otherwise empty. -/
def badImportYqPath (chain : List Node) (i : Nat) : String :=
  match chain.head? with
  | none => ""
  | some b =>
    let p := if b.zarfComponent.importDef.url ≠ "" then importURLYqPath i else ""
    if b.zarfComponent.importDef.path ≠ "" then importPathYqPath i else p

/-- Component loop of `lintComponents` (iteration C, lint.go lines 616-652):
a chain-build error is recorded as a `SevErr` finding located at the failing
component's import field, the partial chain is still linted, and the loop
continues with the remaining components; the function never returns an error. -/
def lintComponentsCGo (ops : LintOps) (name arch flavor : String) :
    Nat → List ZarfComponent → List PackageError
  | _, [] => []
  | i, c :: rest =>
    if compatibleComponent c arch flavor = false then
      lintComponentsCGo ops name arch flavor (i + 1) rest
    else
      let r := ops.newImportChain c i name arch flavor
      (match r.2 with
       | some e =>
         [{ description := e
            yqPath := badImportYqPath r.1 i
            category := sevErr }]
       | none => []) ++
        lintNodesC ops.parseImageRef r.1 ++
        lintComponentsCGo ops name arch flavor (i + 1) rest

/-- `lintComponents` (iteration C). -/
def lintComponentsC (ops : LintOps) (pkg : ZarfPackage) (flavor : String) :
    List PackageError :=
  lintComponentsCGo ops pkg.metadata.name (ops.getArch pkg.metadata.architecture)
    flavor 0 pkg.components

/-- `validateSchema` (iteration C): like iteration A but the finding's
`Category` field is left unset (Go zero value). -/
def validateSchemaC (schemaResult : Except String (List SchemaErr)) :
    Except String (List PackageError) :=
  match schemaResult with
  | .error e => .error e
  | .ok errs =>
    .ok (errs.map fun se =>
      { yqPath := makeFieldPathYqCompat se.field
        description := se.description })

/-! ### Validator, iteration B (validator.go) -/

/-- `Category` constant `CategoryError = 1` (validator.go). -/
def categoryError : Nat := 1

/-- `Category` constant `CategoryWarning = 2` (validator.go). -/
def categoryWarning : Nat := 2

/-- `validatorMessage` (validator.go); unset fields default to zero values. -/
structure validatorMessage where
  yqPath : String := ""
  description : String := ""
  item : String := ""
  packageRelPath : String := ""
  packageName : String := ""
  category : Nat := 0
  deriving DecidableEq

/-- `Validator` (validator.go); the `untypedZarfPackage interface{}` field is
not modelled, findings and the remaining fields are. -/
structure Validator where
  findings : List validatorMessage := []
  zarfPackage : ZarfPackage := {}
  baseDir : String := ""
  deriving DecidableEq

/-- Modelled from the spec: `helpers.Unique` (external library), deduplication
by full value equality keeping first occurrences; `seen` accumulates the
values already emitted. -/
def uniqueAux {α : Type} [DecidableEq α] (seen : List α) : List α → List α
  | [] => []
  | x :: xs => if x ∈ seen then uniqueAux seen xs else x :: uniqueAux (x :: seen) xs

/-- Deduplicate a list by full value equality (see `uniqueAux`). -/
def unique {α : Type} [DecidableEq α] (l : List α) : List α :=
  uniqueAux [] l

/-- `Validator.addWarning`: force Warning category, append, deduplicate. -/
def Validator.addWarning (v : Validator) (vmessage : validatorMessage) : Validator :=
  { v with findings := unique (v.findings ++ [{ vmessage with category := categoryWarning }]) }

/-- `Validator.addError`: force Error category, append, deduplicate. -/
def Validator.addError (v : Validator) (vMessage : validatorMessage) : Validator :=
  { v with findings := unique (v.findings ++ [{ vMessage with category := categoryError }]) }

/-- `Validator.hasSeverity`: some finding is at least as severe (`<=`). -/
def Validator.hasSeverity (v : Validator) (c : Nat) : Bool :=
  v.findings.any fun finding => finding.category ≤ c

/-- `Validator.HasErrors`. -/
def Validator.HasErrors (v : Validator) : Bool :=
  v.hasSeverity categoryError

/-- One accumulator call: `addWarning` or `addError` with a given message. -/
inductive VOp where
  | warn (m : validatorMessage)
  | err (m : validatorMessage)

/-- Apply one accumulator call. -/
def applyVOp (v : Validator) : VOp → Validator
  | .warn m => v.addWarning m
  | .err m => v.addError m

/-- Run a sequence of `addWarning`/`addError` calls on a fresh validator. -/
def runVOps (ops : List VOp) : Validator :=
  ops.foldl applyVOp {}

/-! ### Composer (ComposeComponents and its collaborators) -/

/-- The external collaborators of `ComposeComponents`, passed explicitly:
`composer.NewImportChain`, `chain.Migrate` (returning the migrated chain and
its warnings, since the Go method mutates the chain in place),
`chain.Compose`, `chain.MergeVariables` and `chain.MergeConstants`. -/
structure ComposerOps where
  newImportChain : ZarfComponent → Nat → String → String → String → Except String (List Node)
  migrate : List Node → ZarfBuildData → List Node × List String
  compose : List Node → Except String ZarfComponent
  mergeVariables : List Node → List InteractiveVariable → List InteractiveVariable
  mergeConstants : List Node → List Constant → List Constant

/-- Component loop of `ComposeComponents`: skip incompatible components,
clear `only.cluster.architecture` and `only.flavor`, build the chain, migrate,
compose, and merge variables/constants; any chain/compose error aborts. -/
def composeComponentsGo (ops : ComposerOps) (name arch flavor : String)
    (build : ZarfBuildData) :
    Nat → List ZarfComponent → List ZarfComponent → List String →
      List InteractiveVariable → List Constant →
      Except String (List ZarfComponent × List String × List InteractiveVariable × List Constant)
  | _, [], comps, warnings, vars, consts => .ok (comps, warnings, vars, consts)
  | i, c :: rest, comps, warnings, vars, consts =>
    if compatibleComponent c arch flavor = false then
      composeComponentsGo ops name arch flavor build (i + 1) rest comps warnings vars consts
    else
      let c2 := { c with only := { c.only with
                                   cluster := { c.only.cluster with architecture := "" },
                                   flavor := "" } }
      match ops.newImportChain c2 i name arch flavor with
      | .error e => .error e
      | .ok chain =>
        let mg := ops.migrate chain build
        match ops.compose mg.1 with
        | .error e => .error e
        | .ok composed =>
          composeComponentsGo ops name arch flavor build (i + 1) rest
            (comps ++ [composed]) (warnings ++ mg.2)
            (ops.mergeVariables mg.1 vars) (ops.mergeConstants mg.1 consts)

/-- `composer.ComposeComponents` (src/unnamed/part_000): returns the package
with filtered-and-composed components and merged variables/constants, plus
the migration warnings. -/
def composeComponents (ops : ComposerOps) (pkg : ZarfPackage) (flavor : String) :
    Except String (ZarfPackage × List String) :=
  match composeComponentsGo ops pkg.metadata.name pkg.metadata.architecture flavor
      pkg.build 0 pkg.components [] [] pkg.variables pkg.constants with
  | .error e => .error e
  | .ok (comps, warnings, vars, consts) =>
    .ok ({ pkg with components := comps, «variables» := vars, constants := consts }, warnings)

/-! ### Specification-side definitions and witness fixtures -/

/-- Dot-joined path segments (the shape of a schema field path): spec-side
description of the inputs of `makeFieldPathYqCompat`. -/
def joinDot : List (List Char) → List Char
  | [] => []
  | [s] => s
  | s :: s2 :: rest => s ++ '.' :: joinDot (s2 :: rest)

/-- Spec-side transformation of one path segment: a standalone integer
segment is wrapped in brackets, any other segment is kept. -/
def wrapSeg (seg : List Char) : List Char :=
  if seg.all Char.isDigit then '[' :: seg ++ [']'] else seg

/-- Test oracle standing in for `transform.ParseImageRef` in witnesses,
reproducing its documented behavior on the spec §8 examples. -/
def parseImageRefFx : String → Except String ImageRef := fun s =>
  if s = "busybox:latest@sha256:3fbc632167424a6d997e74f52b878d7cc478225cffac6bc977eedfe51c7f4e79" then
    .ok { reference := s
          digest := "sha256:3fbc632167424a6d997e74f52b878d7cc478225cffac6bc977eedfe51c7f4e79" }
  else if s = "registry.com:8080/defenseunicorns/whatever" then
    .ok { reference := s, digest := "" }
  else
    .error "invalid reference format"

/-- Concrete lint collaborators for witnesses and counterexamples: the chain
builder returns a single-node chain and fails (with the chain built so far,
as the Go builder does) exactly on the import path `fake-path`. -/
def lintOpsFx : LintOps :=
  { getArch := fun a => a
    newImportChain := fun c i _ _ _ =>
      ([{ zarfComponent := c, index := i, importLocation := "."
          originalPackageName := "test-zarf-package" }],
        if c.importDef.path = "fake-path" then
          some "open fake-path/zarf.yaml: no such file or directory"
        else none)
    reloadYamlTemplate := fun c => .ok c
    parseImageRef := fun s => .ok { reference := s, digest := "" } }

/-- A component whose import chain cannot be built (missing local import). -/
def importComponentFx : ZarfComponent :=
  { name := "import-test"
    importDef := { path := "fake-path" }
    images := ["unpinned:latest"] }

/-- A component with one unpinned repository. -/
def repoComponentFx : ZarfComponent :=
  { name := "repo-test"
    repos := ["https://github.com/defenseunicorns/zarf-public-test.git"] }

/-- A package whose first component fails chain-building and whose second
component would produce an unpinned-repository finding. -/
def pkgBothFx : ZarfPackage :=
  { metadata := { name := "test-zarf-package" }
    components := [importComponentFx, repoComponentFx] }

/-- The same package with only the second component. -/
def pkgRepoOnlyFx : ZarfPackage :=
  { metadata := { name := "test-zarf-package" }
    components := [repoComponentFx] }

/-- Concrete composer collaborators for witnesses: a single-node chain, an
identity migrator, composition to the head component, identity merges. -/
def composerOpsFx : ComposerOps :=
  { newImportChain := fun c i _ _ _ => .ok [{ zarfComponent := c, index := i }]
    migrate := fun ch _ => (ch, [])
    compose := fun ch =>
      .ok (match ch.head? with
           | some n => n.zarfComponent
           | none => {})
    mergeVariables := fun _ v => v
    mergeConstants := fun _ k => k }

/-- A chain builder that agrees with `composerOpsFx` on components whose
architecture/flavor constraints are cleared and fails elsewhere. -/
def clearedOnlyChainBuilderFx :
    ZarfComponent → Nat → String → String → String → Except String (List Node) :=
  fun c i n a f =>
    if c.only.cluster.architecture = "" ∧ c.only.flavor = "" then
      composerOpsFx.newImportChain c i n a f
    else .error "component constraints were not cleared"

/-- A component carrying an architecture constraint that matches the target. -/
def archComponentFx : ZarfComponent :=
  { name := "demo", only := { cluster := { architecture := "amd64" } } }

/-- A package exercising the composer fixtures. -/
def pkgComposeFx : ZarfPackage :=
  { kind := "ZarfPackageConfig"
    metadata := { name := "demo-pkg", architecture := "amd64", version := "1.0.0" }
    build := { user := "dev" }
    components := [archComponentFx]
    constants := [{ name := "BAR" }]
    «variables» := [{ name := "FOO" }] }

/-- The package produced by `composeComponents composerOpsFx pkgComposeFx ""`. -/
def pkgComposeOutFx : ZarfPackage :=
  { pkgComposeFx with
    components := [{ archComponentFx with
                     only := { archComponentFx.only with
                               cluster := { archComponentFx.only.cluster with architecture := "" },
                               flavor := "" } }] }

/-- A validator message used by the deduplication witness. -/
def vmsgFx : validatorMessage :=
  { description := "Unpinned repository"
    item := "https://github.com/defenseunicorns/zarf-public-test.git" }

/-- A component with one unpinned and one pinned repository (the lint test
fixture). -/
def twoReposFx : ZarfComponent :=
  { name := "repos-test"
    repos := ["https://github.com/defenseunicorns/zarf-public-test.git",
      "https://dev.azure.com/defenseunicorns/zarf-public-test/_git/zarf-public-test@v0.0.1"] }

/-- The segments of the schema field path `components12.12.import.path`. -/
def segsFx : List (List Char) :=
  [['c','o','m','p','o','n','e','n','t','s','1','2'], ['1','2'],
    ['i','m','p','o','r','t'], ['p','a','t','h']]

/-- A validator holding one Error finding. -/
def errValidatorFx : Validator :=
  { findings := [{ description := "schema violation", category := categoryError }] }

/-- A validator holding only a Warning finding. -/
def warnValidatorFx : Validator :=
  { findings := [{ description := "Unpinned repository", category := categoryWarning }] }

/-- A call sequence that adds the same message twice as a warning. -/
def vopsFx : List VOp := [VOp.warn vmsgFx, VOp.err vmsgFx, VOp.warn vmsgFx]

/-- A component whose import path is a template placeholder. -/
def pathTmplComponentFx : ZarfComponent :=
  { importDef := { path := "###ZARF_PKG_TMPL_PATH###" } }

/-- A component whose import path uses only the deprecated placeholder
prefix. -/
def varPathComponentFx : ZarfComponent :=
  { importDef := { path := "###ZARF_PKG_VAR_PATH###" } }

/-! ### Helper lemmas: decimal rendering is injective -/

theorem digitVal_digitChar {n : Nat} (h : n < 10) : digitVal (Nat.digitChar n) = n := by
  interval_cases n <;> rfl

theorem decValLE_natToDecAux : ∀ fuel n, n < fuel → decValLE (natToDecAux fuel n) = n := by
  intro fuel
  induction fuel with
  | zero => intro n h; omega
  | succ fuel ih =>
    intro n h
    by_cases h10 : n < 10
    · simp only [natToDecAux, if_pos h10, decValLE]
      rw [digitVal_digitChar h10]
      omega
    · simp only [natToDecAux, if_neg h10, decValLE]
      have hdiv : n / 10 < n := Nat.div_lt_self (by omega) (by omega)
      rw [digitVal_digitChar (Nat.mod_lt _ (by omega))]
      rw [ih (n / 10) (by omega)]
      omega

theorem natToDec_injective {m n : Nat} (h : natToDec m = natToDec n) : m = n := by
  have h2 : (natToDecAux (m + 1) m).reverse = (natToDecAux (n + 1) n).reverse :=
    congrArg String.data h
  have h3 : natToDecAux (m + 1) m = natToDecAux (n + 1) n := by
    have := congrArg List.reverse h2
    simpa using this
  have hm := decValLE_natToDecAux (m + 1) m (by omega)
  have hn := decValLE_natToDecAux (n + 1) n (by omega)
  rw [← hm, ← hn, h3]

theorem data_append (a b : String) : (a ++ b).data = a.data ++ b.data := rfl

theorem append_mid_inj {p x y s : List Char} (h : p ++ x ++ s = p ++ y ++ s) : x = y := by
  rw [List.append_assoc, List.append_assoc] at h
  have h2 := List.append_cancel_left h
  exact List.append_cancel_right h2

theorem repoYqPath_inj {i j k : Nat} (h : repoYqPath i j = repoYqPath i k) : j = k := by
  unfold repoYqPath at h
  have hd := congrArg String.data h
  simp only [data_append] at hd
  rw [show ∀ a b c d e : List Char, a ++ b ++ c ++ d ++ e = (a ++ b ++ c) ++ d ++ e by
    intro a b c d e; simp [List.append_assoc]] at hd
  have h3 : (natToDec j).data = (natToDec k).data := append_mid_inj hd
  exact natToDec_injective (String.ext h3)

/-! ### Helper lemmas: deduplication by full equality -/

theorem mem_uniqueAux {α : Type} [DecidableEq α] {x : α} :
    ∀ l seen, x ∈ uniqueAux seen l ↔ x ∈ l ∧ x ∉ seen := by
  intro l
  induction l with
  | nil => intro seen; simp [uniqueAux]
  | cons a t ih =>
    intro seen
    by_cases ha : a ∈ seen
    · simp only [uniqueAux, if_pos ha, ih]
      constructor
      · rintro ⟨h1, h2⟩; exact ⟨List.mem_cons_of_mem _ h1, h2⟩
      · rintro ⟨h1, h2⟩
        rcases List.mem_cons.mp h1 with rfl | h1
        · exact absurd ha h2
        · exact ⟨h1, h2⟩
    · simp only [uniqueAux, if_neg ha, List.mem_cons, ih, List.mem_cons]
      constructor
      · rintro (rfl | ⟨h1, h2⟩)
        · exact ⟨Or.inl rfl, ha⟩
        · exact ⟨Or.inr h1, fun hx => h2 (Or.inr hx)⟩
      · rintro ⟨rfl | h1, h2⟩
        · exact Or.inl rfl
        · by_cases hxa : x = a
          · exact Or.inl hxa
          · exact Or.inr ⟨h1, by simp [List.mem_cons, hxa, h2]⟩

theorem nodup_uniqueAux {α : Type} [DecidableEq α] :
    ∀ (l seen : List α), (uniqueAux seen l).Nodup := by
  intro l
  induction l with
  | nil => intro seen; simp [uniqueAux]
  | cons a t ih =>
    intro seen
    by_cases ha : a ∈ seen
    · simp only [uniqueAux, if_pos ha]; exact ih seen
    · simp only [uniqueAux, if_neg ha]
      refine List.nodup_cons.mpr ⟨?_, ih (a :: seen)⟩
      intro hmem
      exact ((mem_uniqueAux t (a :: seen)).mp hmem).2 (List.mem_cons_self a seen)

theorem uniqueAux_append_mem {α : Type} [DecidableEq α] :
    ∀ (l seen : List α) (x : α), l.Nodup →
      (∀ y ∈ l, y ∉ seen) → (x ∈ l ∨ x ∈ seen) → uniqueAux seen (l ++ [x]) = l := by
  intro l
  induction l with
  | nil =>
    intro seen x _ _ hx
    have hxs : x ∈ seen := by
      rcases hx with h | h
      · exact absurd h (List.not_mem_nil x)
      · exact h
    simp [uniqueAux, hxs]
  | cons a t ih =>
    intro seen x hnd hdisj hx
    have ha : a ∉ seen := hdisj a (List.mem_cons_self a t)
    simp only [List.cons_append, uniqueAux, if_neg ha]
    congr 1
    apply ih (a :: seen) x (List.nodup_cons.mp hnd).2
    · intro y hy
      rw [List.mem_cons]
      rintro (rfl | hys)
      · exact (List.nodup_cons.mp hnd).1 hy
      · exact hdisj y (List.mem_cons_of_mem _ hy) hys
    · rcases hx with hxl | hxs
      · rcases List.mem_cons.mp hxl with rfl | hxt
        · exact Or.inr (List.mem_cons_self x seen)
        · exact Or.inl hxt
      · exact Or.inr (List.mem_cons_of_mem _ hxs)

theorem unique_nodup {α : Type} [DecidableEq α] (l : List α) : (unique l).Nodup :=
  nodup_uniqueAux l []

theorem unique_append_mem {α : Type} [DecidableEq α] {l : List α} {x : α}
    (hnd : l.Nodup) (hx : x ∈ l) : unique (l ++ [x]) = l :=
  uniqueAux_append_mem l [] x hnd (by simp) (Or.inl hx)

theorem runVOps_nodup_aux : ∀ (ops : List VOp) (v : Validator), v.findings.Nodup →
    (ops.foldl applyVOp v).findings.Nodup := by
  intro ops
  induction ops with
  | nil => intro v h; exact h
  | cons op rest ih =>
    intro v _
    apply ih
    cases op with
    | warn m => exact unique_nodup _
    | err m => exact unique_nodup _

/-! ### Helper lemmas: the word-boundary bracketing scanner -/

theorem length_dropWhile_le (p : Char → Bool) (l : List Char) :
    (l.dropWhile p).length ≤ l.length :=
  (List.dropWhile_sublist p).length_le

theorem wrapRunsAux_fuel : ∀ f1 f2 prevWord l, l.length < f1 → l.length < f2 →
    wrapRunsAux f1 prevWord l = wrapRunsAux f2 prevWord l := by
  intro f1
  induction f1 with
  | zero => intro f2 prevWord l h1 _; omega
  | succ f1 ih =>
    intro f2 prevWord l h1 h2
    cases l with
    | nil =>
      cases f2 with
      | zero => omega
      | succ f2 => rfl
    | cons c rest =>
      cases f2 with
      | zero => omega
      | succ f2 =>
        simp only [List.length_cons] at h1 h2
        have hdrop : (rest.dropWhile Char.isDigit).length ≤ rest.length :=
          length_dropWhile_le _ _
        simp only [wrapRunsAux]
        rw [ih f2 true (rest.dropWhile Char.isDigit) (by omega) (by omega),
          ih f2 (isWordChar c) rest (by omega) (by omega)]

theorem wrapRuns_nil (prevWord : Bool) : wrapRuns prevWord [] = [] := rfl

theorem wrapRuns_cons (prevWord : Bool) (c : Char) (rest : List Char) :
    wrapRuns prevWord (c :: rest) =
      if c.isDigit && !prevWord then
        if boundaryOk (rest.dropWhile Char.isDigit) then
          '[' :: ((c :: rest.takeWhile Char.isDigit) ++
            ']' :: wrapRuns true (rest.dropWhile Char.isDigit))
        else
          (c :: rest.takeWhile Char.isDigit) ++ wrapRuns true (rest.dropWhile Char.isDigit)
      else
        c :: wrapRuns (isWordChar c) rest := by
  have hdrop : (rest.dropWhile Char.isDigit).length ≤ rest.length :=
    length_dropWhile_le _ _
  show wrapRunsAux ((c :: rest).length + 1) prevWord (c :: rest) = _
  simp only [wrapRunsAux, List.length_cons]
  rw [wrapRunsAux_fuel (rest.length + 1) ((rest.dropWhile Char.isDigit).length + 1) true
    (rest.dropWhile Char.isDigit) (by omega) (by omega)]
  rfl

theorem takeWhile_append_of_all {p : Char → Bool} : ∀ {u : List Char} (t : List Char),
    (∀ c ∈ u, p c = true) → (u ++ t).takeWhile p = u ++ t.takeWhile p := by
  intro u
  induction u with
  | nil => intro t _; rfl
  | cons a u ih =>
    intro t h
    have ha : p a = true := h a (List.mem_cons_self a u)
    simp only [List.cons_append, List.takeWhile_cons, ha, if_true]
    rw [ih t fun c hc => h c (List.mem_cons_of_mem _ hc)]

theorem dropWhile_append_of_all {p : Char → Bool} : ∀ {u : List Char} (t : List Char),
    (∀ c ∈ u, p c = true) → (u ++ t).dropWhile p = t.dropWhile p := by
  intro u
  induction u with
  | nil => intro t _; rfl
  | cons a u ih =>
    intro t h
    have ha : p a = true := h a (List.mem_cons_self a u)
    simp only [List.cons_append, List.dropWhile_cons, ha, if_true]
    exact ih t fun c hc => h c (List.mem_cons_of_mem _ hc)

theorem not_digit_of_boundaryOk : ∀ {t : List Char}, boundaryOk t = true →
    t.takeWhile Char.isDigit = [] ∧ t.dropWhile Char.isDigit = t := by
  intro t h
  cases t with
  | nil => exact ⟨rfl, rfl⟩
  | cons c t =>
    have hc : isWordChar c = false := by
      simp only [boundaryOk, Bool.not_eq_true'] at h
      exact h
    have hcd : c.isDigit = false := by
      simp only [isWordChar, Bool.or_eq_false_iff] at hc
      exact hc.1.2
    constructor
    · simp [List.takeWhile_cons, hcd]
    · simp [List.dropWhile_cons, hcd]

theorem wrapRuns_copy : ∀ (u t : List Char), (∀ c ∈ u, isWordChar c = true) →
    wrapRuns true (u ++ t) = u ++ wrapRuns true t := by
  intro u
  induction u with
  | nil => intro t _; rfl
  | cons a u ih =>
    intro t h
    have ha : isWordChar a = true := h a (List.mem_cons_self a u)
    rw [List.cons_append, wrapRuns_cons]
    simp only [Bool.not_true, Bool.and_false, if_false, ha]
    rw [ih t fun c hc => h c (List.mem_cons_of_mem _ hc)]
    rfl

theorem wrapRuns_digit_run : ∀ (d t : List Char), d ≠ [] → (∀ c ∈ d, c.isDigit = true) →
    boundaryOk t = true →
    wrapRuns false (d ++ t) = '[' :: d ++ ']' :: wrapRuns true t := by
  intro d t hne hd hb
  cases d with
  | nil => exact absurd rfl hne
  | cons c d =>
    have hc : c.isDigit = true := hd c (List.mem_cons_self c d)
    have hdall : ∀ x ∈ d, Char.isDigit x = true := fun x hx => hd x (List.mem_cons_of_mem _ hx)
    rw [List.cons_append, wrapRuns_cons]
    simp only [hc, Bool.not_false, Bool.and_true, if_true]
    rw [takeWhile_append_of_all t hdall, dropWhile_append_of_all t hdall,
      (not_digit_of_boundaryOk hb).1, (not_digit_of_boundaryOk hb).2, hb]
    simp

theorem takeWhile_append_of_exists {p : Char → Bool} : ∀ (u t : List Char),
    (∃ x ∈ u, p x = false) → (u ++ t).takeWhile p = u.takeWhile p := by
  intro u
  induction u with
  | nil => intro t h; simp at h
  | cons a u ih =>
    intro t h
    by_cases ha : p a = true
    · simp only [List.cons_append, List.takeWhile_cons, ha, if_true]
      obtain ⟨x, hx, hpx⟩ := h
      rcases List.mem_cons.mp hx with rfl | hx
      · rw [ha] at hpx; cases hpx
      · rw [ih t ⟨x, hx, hpx⟩]
    · have ha2 : p a = false := by
        cases hpa : p a
        · rfl
        · exact absurd hpa ha
      simp [List.cons_append, List.takeWhile_cons, ha2]

theorem dropWhile_append_of_exists {p : Char → Bool} : ∀ (u t : List Char),
    (∃ x ∈ u, p x = false) → (u ++ t).dropWhile p = u.dropWhile p ++ t := by
  intro u
  induction u with
  | nil => intro t h; simp at h
  | cons a u ih =>
    intro t h
    by_cases ha : p a = true
    · simp only [List.cons_append, List.dropWhile_cons, ha, if_true]
      obtain ⟨x, hx, hpx⟩ := h
      rcases List.mem_cons.mp hx with rfl | hx
      · rw [ha] at hpx; cases hpx
      · exact ih t ⟨x, hx, hpx⟩
    · have ha2 : p a = false := by
        cases hpa : p a
        · rfl
        · exact absurd hpa ha
      simp [List.cons_append, List.dropWhile_cons, ha2]

theorem dropWhile_head_not {p : Char → Bool} : ∀ (u : List Char),
    (∃ x ∈ u, p x = false) → ∃ w e2, u.dropWhile p = w :: e2 ∧ p w = false := by
  intro u
  induction u with
  | nil => intro h; simp at h
  | cons a u ih =>
    intro h
    by_cases ha : p a = true
    · simp only [List.dropWhile_cons, ha, if_true]
      obtain ⟨x, hx, hpx⟩ := h
      rcases List.mem_cons.mp hx with rfl | hx
      · rw [ha] at hpx; cases hpx
      · exact ih ⟨x, hx, hpx⟩
    · have ha2 : p a = false := by
        cases hpa : p a
        · rfl
        · exact absurd hpa ha
      refine ⟨a, u, ?_, ha2⟩
      simp [List.dropWhile_cons, ha2]

theorem dropWhile_subset {p : Char → Bool} (u : List Char) :
    ∀ x ∈ u.dropWhile p, x ∈ u :=
  fun _ hx => (List.dropWhile_sublist p).subset hx

theorem wrapRuns_word_seg : ∀ (seg t : List Char), seg ≠ [] →
    (∀ c ∈ seg, isWordChar c = true) → (∃ x ∈ seg, x.isDigit = false) →
    wrapRuns false (seg ++ t) = seg ++ wrapRuns true t := by
  intro seg t hne hword hex
  cases seg with
  | nil => exact absurd rfl hne
  | cons c rest =>
    by_cases hc : c.isDigit = true
    · have hexr : ∃ x ∈ rest, x.isDigit = false := by
        obtain ⟨x, hx, hpx⟩ := hex
        rcases List.mem_cons.mp hx with rfl | hx
        · rw [hc] at hpx; cases hpx
        · exact ⟨x, hx, hpx⟩
      rw [List.cons_append, wrapRuns_cons]
      simp only [hc, Bool.not_false, Bool.and_true, if_true]
      rw [takeWhile_append_of_exists rest t hexr, dropWhile_append_of_exists rest t hexr]
      obtain ⟨w, e2, hwe, hw⟩ := dropWhile_head_not rest hexr
      have hbad : boundaryOk (rest.dropWhile Char.isDigit ++ t) = false := by
        rw [hwe]
        simp only [List.cons_append, boundaryOk, Bool.not_eq_false']
        exact hword w (List.mem_cons_of_mem _
          (dropWhile_subset rest w (by rw [hwe]; exact List.mem_cons_self w e2)))
      rw [hbad]
      simp only [Bool.false_eq_true, if_false]
      rw [wrapRuns_copy (rest.dropWhile Char.isDigit) t
        fun x hx => hword x (List.mem_cons_of_mem _ (dropWhile_subset rest x hx))]
      simp only [List.cons_append, List.cons.injEq, true_and]
      rw [← List.append_assoc, List.takeWhile_append_dropWhile]
    · have hc2 : c.isDigit = false := by
        cases hpc : c.isDigit
        · rfl
        · exact absurd hpc hc
      rw [List.cons_append, wrapRuns_cons]
      simp only [hc2, Bool.false_and, if_false]
      rw [hword c (List.mem_cons_self c rest)]
      rw [wrapRuns_copy rest t fun x hx => hword x (List.mem_cons_of_mem _ hx)]
      simp

theorem isWordChar_dot : isWordChar '.' = false := by decide

theorem wrapRuns_dot (l : List Char) : wrapRuns true ('.' :: l) = '.' :: wrapRuns false l := by
  rw [wrapRuns_cons]
  have h1 : ('.' : Char).isDigit = false := by decide
  simp [h1, isWordChar_dot]

theorem exists_not_digit_of_not_all {seg : List Char} (h : seg.all Char.isDigit = false) :
    ∃ x ∈ seg, x.isDigit = false := by
  have h2 : ¬ ∀ x ∈ seg, Char.isDigit x := by
    rw [← List.all_eq_true]
    simp [h]
  push_neg at h2
  obtain ⟨x, hx, hpx⟩ := h2
  exact ⟨x, hx, by simpa using hpx⟩

theorem wrapRuns_seg_step : ∀ (seg t : List Char), seg ≠ [] →
    (∀ c ∈ seg, isWordChar c = true) → boundaryOk t = true →
    wrapRuns false (seg ++ t) = wrapSeg seg ++ wrapRuns true t := by
  intro seg t hne hword hb
  by_cases hall : seg.all Char.isDigit = true
  · rw [wrapRuns_digit_run seg t hne (fun c hc => List.all_eq_true.mp hall c hc) hb]
    simp [wrapSeg, hall]
  · have hex := exists_not_digit_of_not_all (by simpa using hall)
    rw [wrapRuns_word_seg seg t hne hword hex]
    simp [wrapSeg, hall]

theorem wrapRuns_joinDot : ∀ segs : List (List Char), segs ≠ [] →
    (∀ seg ∈ segs, seg ≠ [] ∧ ∀ c ∈ seg, isWordChar c = true) →
    wrapRuns false (joinDot segs) = joinDot (segs.map wrapSeg) := by
  intro segs
  induction segs with
  | nil => intro h _; exact absurd rfl h
  | cons s rest ih =>
    intro _ hseg
    have hs := hseg s (List.mem_cons_self s rest)
    cases rest with
    | nil =>
      show wrapRuns false s = joinDot [wrapSeg s]
      have : wrapRuns false (s ++ []) = wrapSeg s ++ wrapRuns true [] :=
        wrapRuns_seg_step s [] hs.1 hs.2 rfl
      simpa [joinDot, wrapRuns_nil] using this
    | cons s2 rest2 =>
      show wrapRuns false (s ++ '.' :: joinDot (s2 :: rest2)) =
        wrapSeg s ++ '.' :: joinDot ((s2 :: rest2).map wrapSeg)
      rw [wrapRuns_seg_step s ('.' :: joinDot (s2 :: rest2)) hs.1 hs.2
        (by simp [boundaryOk, isWordChar_dot])]
      rw [wrapRuns_dot]
      rw [ih (by simp) fun seg hsg => hseg seg (List.mem_cons_of_mem _ hsg)]

theorem joinDot_ne_root {segs : List (List Char)} (hne : segs ≠ [])
    (hseg : ∀ seg ∈ segs, seg ≠ [] ∧ ∀ c ∈ seg, isWordChar c = true) :
    (⟨joinDot segs⟩ : String) ≠ "(root)" := by
  intro h
  have hd : joinDot segs = "(root)".data := by
    have := congrArg String.data h
    simpa using this
  cases segs with
  | nil => exact hne rfl
  | cons s rest =>
    have hs := hseg s (List.mem_cons_self s rest)
    obtain ⟨c0, s2, rfl⟩ : ∃ c0 s2, s = c0 :: s2 := by
      cases s with
      | nil => exact absurd rfl hs.1
      | cons c0 s2 => exact ⟨c0, s2, rfl⟩
    have hc0 : isWordChar c0 = true := hs.2 c0 (List.mem_cons_self c0 s2)
    have hhead : joinDot ((c0 :: s2) :: rest) = c0 :: (joinDot ((c0 :: s2) :: rest)).tail := by
      cases rest with
      | nil => rfl
      | cons s3 rest2 => rfl
    rw [hhead] at hd
    have : c0 = '(' := by
      have := congrArg (fun l => l.head?) hd
      simpa using this
    rw [this] at hc0
    exact absurd hc0 (by decide)

/-! ### Helper lemmas: the unpinned-repository loop -/

theorem checkForUnpinnedReposGo_yqPath : ∀ (l : List String) (i j0 : Nat),
    ∀ f ∈ checkForUnpinnedReposGo i j0 l, ∃ j2, j0 ≤ j2 ∧ f.yqPath = repoYqPath i j2 := by
  intro l
  induction l with
  | nil => intro i j0 f hf; simp [checkForUnpinnedReposGo] at hf
  | cons repo rest ih =>
    intro i j0 f hf
    simp only [checkForUnpinnedReposGo, List.mem_append] at hf
    rcases hf with hf | hf
    · by_cases hp : isPinnedRepo repo
      · rw [if_pos hp] at hf; simp at hf
      · rw [if_neg hp] at hf
        simp only [List.mem_singleton] at hf
        exact ⟨j0, le_refl j0, by rw [hf]; rfl⟩
    · obtain ⟨j2, hj2, hpath⟩ := ih i (j0 + 1) f hf
      exact ⟨j2, by omega, hpath⟩

theorem checkForUnpinnedReposGo_spec : ∀ (l : List String) (i j0 j : Nat) (h : j < l.length),
    (isPinnedRepo (l.get ⟨j, h⟩) = false →
      (checkForUnpinnedReposGo i j0 l).count (unpinnedRepoFinding i (j0 + j) (l.get ⟨j, h⟩)) = 1) ∧
    (isPinnedRepo (l.get ⟨j, h⟩) = true →
      ∀ f ∈ checkForUnpinnedReposGo i j0 l, f.yqPath ≠ repoYqPath i (j0 + j)) := by
  intro l
  induction l with
  | nil => intro i j0 j h; simp at h
  | cons repo rest ih =>
    intro i j0 j h
    cases j with
    | zero =>
      have hget : (repo :: rest).get ⟨0, h⟩ = repo := rfl
      rw [hget]
      constructor
      · intro hunp
        simp only [checkForUnpinnedReposGo]
        rw [if_neg (by simp [hunp]), List.count_append]
        have h0 : (checkForUnpinnedReposGo i (j0 + 1) rest).count
            (unpinnedRepoFinding i (j0 + 0) repo) = 0 := by
          rw [List.count_eq_zero]
          intro hmem
          obtain ⟨j2, hj2, hpath⟩ := checkForUnpinnedReposGo_yqPath rest i (j0 + 1) _ hmem
          have hpp : repoYqPath i (j0 + 0) = repoYqPath i j2 := hpath
          have := repoYqPath_inj hpp
          omega
        rw [h0, Nat.add_zero]
        simp [List.count_singleton]
      · intro hp f hf
        simp only [checkForUnpinnedReposGo, List.mem_append] at hf
        rcases hf with hf | hf
        · rw [if_pos (by simp [hp])] at hf
          simp at hf
        · obtain ⟨j2, hj2, hpath⟩ := checkForUnpinnedReposGo_yqPath rest i (j0 + 1) _ hf
          rw [hpath]
          intro hpp
          have := repoYqPath_inj hpp
          omega
    | succ j2 =>
      have h2 : j2 < rest.length := by
        simp only [List.length_cons] at h
        omega
      have hget : (repo :: rest).get ⟨j2 + 1, h⟩ = rest.get ⟨j2, h2⟩ := rfl
      rw [hget]
      have ihs := ih i (j0 + 1) j2 h2
      constructor
      · intro hunp
        simp only [checkForUnpinnedReposGo]
        rw [List.count_append]
        have hc1 : (if isPinnedRepo repo = true then [] else [unpinnedRepoFinding i j0 repo]).count
            (unpinnedRepoFinding i (j0 + (j2 + 1)) (rest.get ⟨j2, h2⟩)) = 0 := by
          rw [List.count_eq_zero]
          intro hmem
          by_cases hp : isPinnedRepo repo
          · rw [if_pos (by simp [hp])] at hmem
            simp at hmem
          · rw [if_neg (by simp [hp])] at hmem
            simp only [List.mem_singleton] at hmem
            have hpp : repoYqPath i (j0 + (j2 + 1)) = repoYqPath i j0 :=
              congrArg PackageError.yqPath hmem
            have := repoYqPath_inj hpp
            omega
        rw [hc1]
        have hrest := ihs.1 hunp
        rw [show j0 + (j2 + 1) = j0 + 1 + j2 by omega]
        omega
      · intro hp f hf
        simp only [checkForUnpinnedReposGo, List.mem_append] at hf
        rcases hf with hf | hf
        · by_cases hpr : isPinnedRepo repo
          · rw [if_pos (by simp [hpr])] at hf
            simp at hf
          · rw [if_neg (by simp [hpr])] at hf
            simp only [List.mem_singleton] at hf
            rw [hf]
            show repoYqPath i j0 ≠ repoYqPath i (j0 + (j2 + 1))
            intro hpp
            have := repoYqPath_inj hpp
            omega
        · have hrest := ihs.2 hp f hf
          rw [show j0 + (j2 + 1) = j0 + 1 + j2 by omega]
          exact hrest

/-! ### Helper lemmas: the iteration-C lint loop -/

theorem lintComponentsCGo_append : ∀ (ops : LintOps) (name arch flavor : String)
    (cs1 cs2 : List ZarfComponent) (n : Nat),
    lintComponentsCGo ops name arch flavor n (cs1 ++ cs2) =
      lintComponentsCGo ops name arch flavor n cs1 ++
        lintComponentsCGo ops name arch flavor (n + cs1.length) cs2 := by
  intro ops name arch flavor cs1
  induction cs1 with
  | nil => intro cs2 n; simp [lintComponentsCGo]
  | cons c cs1 ih =>
    intro cs2 n
    simp only [List.cons_append, lintComponentsCGo, List.append_eq]
    by_cases hc : compatibleComponent c arch flavor = false
    · rw [if_pos hc, if_pos hc, ih cs2 (n + 1)]
      simp only [List.length_cons]
      rw [show n + (cs1.length + 1) = n + 1 + cs1.length by omega]
    · rw [if_neg hc, if_neg hc, ih cs2 (n + 1)]
      simp only [List.length_cons]
      rw [show n + (cs1.length + 1) = n + 1 + cs1.length by omega]
      simp [List.append_assoc]

theorem lintComponentsC_records_chain_error :
    ∀ (ops : LintOps) (name arch flavor : String) (i : Nat) (c : ZarfComponent) (e : String),
      compatibleComponent c arch flavor = true →
      (ops.newImportChain c i name arch flavor).2 = some e →
      lintComponentsCGo ops name arch flavor i [c] =
        { description := e
          yqPath := badImportYqPath (ops.newImportChain c i name arch flavor).1 i
          category := sevErr } ::
          lintNodesC ops.parseImageRef (ops.newImportChain c i name arch flavor).1 := by
  intro ops name arch flavor i c e hcomp herr
  simp only [lintComponentsCGo]
  rw [if_neg (by simp [hcomp]), herr]
  simp [lintComponentsCGo]

/-! ### Helper lemmas: the composer loop -/

theorem composeComponentsGo_builder_agree :
    ∀ (cs : List ZarfComponent) (ops : ComposerOps)
      (g : ZarfComponent → Nat → String → String → String → Except String (List Node))
      (name arch flavor : String) (build : ZarfBuildData) (i : Nat)
      (comps : List ZarfComponent) (warnings : List String)
      (vars : List InteractiveVariable) (consts : List Constant),
      (∀ c i2 n a fl, c.only.cluster.architecture = "" → c.only.flavor = "" →
        ops.newImportChain c i2 n a fl = g c i2 n a fl) →
      composeComponentsGo ops name arch flavor build i cs comps warnings vars consts =
        composeComponentsGo { ops with newImportChain := g } name arch flavor build i
          cs comps warnings vars consts := by
  intro cs
  induction cs with
  | nil => intro ops g name arch flavor build i comps warnings vars consts _; rfl
  | cons c cs ih =>
    intro ops g name arch flavor build i comps warnings vars consts h
    simp only [composeComponentsGo]
    by_cases hc : compatibleComponent c arch flavor = false
    · rw [if_pos hc, if_pos hc]
      exact ih ops g name arch flavor build (i + 1) comps warnings vars consts h
    · rw [if_neg hc, if_neg hc]
      rw [← h _ i name arch flavor rfl rfl]
      cases hch : ops.newImportChain
          { c with only := { c.only with
                             cluster := { c.only.cluster with architecture := "" },
                             flavor := "" } } i name arch flavor with
      | error e => rfl
      | ok chain =>
        cases hcp : (ops.migrate chain build) with
        | mk chain2 warns =>
          cases hco : ops.compose chain2 with
          | error e => simp [hcp, hco]
          | ok composed =>
            simp only [hcp, hco]
            exact ih ops g name arch flavor build (i + 1) (comps ++ [composed])
              (warnings ++ warns) (ops.mergeVariables chain2 vars)
              (ops.mergeConstants chain2 consts) h

/-! ### Claim theorems -/

/-- C1 (counterexample): in iteration A's `lintComponents` (lint.go lines
63-99), a fatal chain-build error on the first top-level component aborts the
whole lint with `return nil, err`: linting the same package returns the error
and produces no findings at all, even though the second component, linted on
its own, yields an unpinned-repository finding. -/
theorem lintComponentsA_abort_counterexample :
    lintComponentsA lintOpsFx pkgBothFx "" =
      .error "open fake-path/zarf.yaml: no such file or directory" ∧
    lintComponentsA lintOpsFx pkgRepoOnlyFx "" =
      .ok [{ yqPath := ".components.[0].repos.[0]"
             description := "Unpinned repository"
             item := "https://github.com/defenseunicorns/zarf-public-test.git"
             packageNameOverride := "test-zarf-package"
             packagePathOverride := "."
             category := sevWarn }] := by
  constructor <;> rfl

/-- C1 (amended): in iteration C's `lintComponents` (lint.go lines 616-652),
processing is per-component compositional — the findings of a component list
split at any point into the findings of the two halves — and a fatal
chain-build error for a compatible component is recorded as a `SevErr`
finding located at that component's import field, followed by the lint
findings of the partially built chain; hence a chain-build failure never
aborts linting of the remaining top-level components there. -/
theorem lintComponentsC_isolates_chain_errors :
    ∀ (ops : LintOps) (name arch flavor : String),
      (∀ (n : Nat) (cs1 cs2 : List ZarfComponent),
        lintComponentsCGo ops name arch flavor n (cs1 ++ cs2) =
          lintComponentsCGo ops name arch flavor n cs1 ++
            lintComponentsCGo ops name arch flavor (n + cs1.length) cs2) ∧
      (∀ (i : Nat) (c : ZarfComponent) (e : String),
        compatibleComponent c arch flavor = true →
        (ops.newImportChain c i name arch flavor).2 = some e →
        lintComponentsCGo ops name arch flavor i [c] =
          { description := e
            yqPath := badImportYqPath (ops.newImportChain c i name arch flavor).1 i
            category := sevErr } ::
            lintNodesC ops.parseImageRef (ops.newImportChain c i name arch flavor).1) := by
  intro ops name arch flavor
  exact ⟨fun n cs1 cs2 => lintComponentsCGo_append ops name arch flavor cs1 cs2 n,
    fun i c e h1 h2 => lintComponentsC_records_chain_error ops name arch flavor i c e h1 h2⟩

/-- C1 (witness): the amended theorem applied to the concrete fixtures: the
two-component package splits into its two halves, and the failing first
component contributes exactly the error finding followed by the partial
chain's findings. -/
theorem lintComponentsC_isolates_chain_errors_witness :
    lintComponentsCGo lintOpsFx "test-zarf-package" "" "" 0
        ([importComponentFx] ++ [repoComponentFx]) =
      lintComponentsCGo lintOpsFx "test-zarf-package" "" "" 0 [importComponentFx] ++
        lintComponentsCGo lintOpsFx "test-zarf-package" "" "" 1 [repoComponentFx] ∧
    lintComponentsCGo lintOpsFx "test-zarf-package" "" "" 0 [importComponentFx] =
      { description := "open fake-path/zarf.yaml: no such file or directory"
        yqPath := badImportYqPath
          (lintOpsFx.newImportChain importComponentFx 0 "test-zarf-package" "" "").1 0
        category := sevErr } ::
        lintNodesC lintOpsFx.parseImageRef
          (lintOpsFx.newImportChain importComponentFx 0 "test-zarf-package" "" "").1 := by
  have h := lintComponentsC_isolates_chain_errors lintOpsFx "test-zarf-package" "" ""
  exact ⟨h.1 0 [importComponentFx] [repoComponentFx],
    h.2 0 importComponentFx "open fake-path/zarf.yaml: no such file or directory"
      (by decide) rfl⟩

/-- C2: for every parse oracle and image string, `isPinnedImage` returns
`(true, nil)` when the reference parses with a non-empty digest,
`(false, nil)` when it parses without a digest, `(true, nil)` when parsing
fails but the string contains a template-placeholder marker (either prefix),
and `(false, err)` when parsing fails otherwise. -/
theorem isPinnedImage_spec :
    ∀ (parse : String → Except String ImageRef) (s : String),
      (∀ r, parse s = .ok r → r.digest ≠ "" → isPinnedImage parse s = (true, none)) ∧
      (∀ r, parse s = .ok r → r.digest = "" → isPinnedImage parse s = (false, none)) ∧
      (∀ e, parse s = .error e →
        (strContains s zarfPackageTemplateMarker || strContains s zarfPackageVariableMarker) = true →
        isPinnedImage parse s = (true, none)) ∧
      (∀ e, parse s = .error e →
        (strContains s zarfPackageTemplateMarker || strContains s zarfPackageVariableMarker) = false →
        isPinnedImage parse s = (false, some e)) := by
  intro parse s
  refine ⟨?_, ?_, ?_, ?_⟩
  · intro r h hd
    simp [isPinnedImage, h, hd]
  · intro r h hd
    simp [isPinnedImage, h, hd]
  · intro e h hc
    simp only [isPinnedImage, h]
    rw [if_pos (by simp_all)]
  · intro e h hc
    simp only [isPinnedImage, h]
    rw [if_neg (by simp_all)]

/-- C2 (witness): the four spec examples under the fixture parse oracle:
digest-pinned, unpinned, templated-after-parse-failure, and plain parse
failure. -/
theorem isPinnedImage_spec_witness :
    isPinnedImage parseImageRefFx
        "busybox:latest@sha256:3fbc632167424a6d997e74f52b878d7cc478225cffac6bc977eedfe51c7f4e79" =
      (true, none) ∧
    isPinnedImage parseImageRefFx "registry.com:8080/defenseunicorns/whatever" = (false, none) ∧
    isPinnedImage parseImageRefFx "busybox:###ZARF_PKG_TMPL_BUSYBOX_IMAGE###" = (true, none) ∧
    isPinnedImage parseImageRefFx "busybox:bad/image" =
      (false, some "invalid reference format") := by
  refine ⟨?_, ?_, ?_, ?_⟩
  · exact (isPinnedImage_spec parseImageRefFx _).1
      { reference := "busybox:latest@sha256:3fbc632167424a6d997e74f52b878d7cc478225cffac6bc977eedfe51c7f4e79"
        digest := "sha256:3fbc632167424a6d997e74f52b878d7cc478225cffac6bc977eedfe51c7f4e79" }
      rfl (by decide)
  · exact (isPinnedImage_spec parseImageRefFx _).2.1
      { reference := "registry.com:8080/defenseunicorns/whatever", digest := "" } rfl rfl
  · exact (isPinnedImage_spec parseImageRefFx _).2.2.1 "invalid reference format" rfl (by decide)
  · exact (isPinnedImage_spec parseImageRefFx _).2.2.2 "invalid reference format" rfl (by decide)

/-- C3 (counterexample): an import path consisting of the deprecated
`###ZARF_PKG_VAR_` template placeholder — a template placeholder per the
spec's placeholder syntax — yields no finding from
`checkForVarInComponentImport`, refuting the claim for "any template
placeholder". -/
theorem checkForVarInComponentImport_misses_var_prefix :
    strContains "###ZARF_PKG_VAR_PATH###" zarfPackageVariableMarker = true ∧
    checkForVarInComponentImport varPathComponentFx 0 = [] := by
  exact ⟨by decide, rfl⟩

/-- C3 (amended): `checkForVarInComponentImport` flags exactly the current
`###ZARF_PKG_TMPL_` prefix: an import path (or url) containing it yields a
Warning finding whose item is the literal path (url) string at locator
`.components.[i].import.path` (`.url`), and a component whose import fields
contain no such prefix yields no finding; the deprecated `###ZARF_PKG_VAR_`
prefix is not flagged. -/
theorem checkForVarInComponentImport_tmpl_only :
    ∀ (c : ZarfComponent) (i : Nat),
      (strContains c.importDef.path zarfPackageTemplateMarker = true →
        ∃ f ∈ checkForVarInComponentImport c i,
          f.item = c.importDef.path ∧ f.yqPath = importPathYqPath i ∧ f.category = sevWarn) ∧
      (strContains c.importDef.url zarfPackageTemplateMarker = true →
        ∃ f ∈ checkForVarInComponentImport c i,
          f.item = c.importDef.url ∧ f.yqPath = importURLYqPath i ∧ f.category = sevWarn) ∧
      (strContains c.importDef.path zarfPackageTemplateMarker = false →
        strContains c.importDef.url zarfPackageTemplateMarker = false →
        checkForVarInComponentImport c i = []) := by
  intro c i
  refine ⟨?_, ?_, ?_⟩
  · intro hp
    refine ⟨{ yqPath := importPathYqPath i
              description := "Zarf does not evaluate variables at component.x.import.path"
              item := c.importDef.path
              category := sevWarn }, ?_, rfl, rfl, rfl⟩
    simp [checkForVarInComponentImport, hp]
  · intro hu
    refine ⟨{ yqPath := importURLYqPath i
              description := "Zarf does not evaluate variables at component.x.import.url"
              item := c.importDef.url
              category := sevWarn }, ?_, rfl, rfl, rfl⟩
    simp [checkForVarInComponentImport, hu]
  · intro hp hu
    simp [checkForVarInComponentImport, hp, hu]

/-- C3 (witness): a component whose import path is the current template
placeholder is flagged (non-empty findings), and a component without
any placeholder in its import fields yields no finding. -/
theorem checkForVarInComponentImport_tmpl_only_witness :
    checkForVarInComponentImport pathTmplComponentFx 0 ≠ [] ∧
    checkForVarInComponentImport {} 0 = [] := by
  constructor
  · intro hnil
    obtain ⟨f, hf, -⟩ :=
      (checkForVarInComponentImport_tmpl_only pathTmplComponentFx 0).1 (by decide)
    rw [hnil] at hf
    exact List.not_mem_nil f hf
  · exact (checkForVarInComponentImport_tmpl_only {} 0).2.2 (by decide) (by decide)

/-- C4: for every validator whose findings carry the categories the add
operations assign, `HasErrors` is true iff some finding has Error category,
and a validator with only Warning findings has `HasErrors` false. -/
theorem hasErrors_iff_error_finding :
    ∀ v : Validator,
      (∀ f ∈ v.findings, f.category = categoryError ∨ f.category = categoryWarning) →
      ((v.HasErrors = true ↔ ∃ f ∈ v.findings, f.category = categoryError) ∧
        ((∀ f ∈ v.findings, f.category = categoryWarning) → v.HasErrors = false)) := by
  intro v hv
  constructor
  · constructor
    · intro h
      simp only [Validator.HasErrors, Validator.hasSeverity, List.any_eq_true,
        decide_eq_true_eq] at h
      obtain ⟨f, hf, hle⟩ := h
      rcases hv f hf with he | hw
      · exact ⟨f, hf, he⟩
      · rw [hw] at hle
        simp [categoryWarning, categoryError] at hle
    · rintro ⟨f, hf, he⟩
      simp only [Validator.HasErrors, Validator.hasSeverity, List.any_eq_true,
        decide_eq_true_eq]
      exact ⟨f, hf, by rw [he]⟩
  · intro hall
    simp only [Validator.HasErrors, Validator.hasSeverity, List.any_eq_false,
      decide_eq_true_eq]
    intro f hf
    rw [hall f hf]
    simp [categoryWarning, categoryError]

/-- C4 (witness): a validator with one Error finding reports errors and a
validator with only a Warning finding does not. -/
theorem hasErrors_iff_error_finding_witness :
    errValidatorFx.HasErrors = true ∧ warnValidatorFx.HasErrors = false := by
  constructor
  · exact (hasErrors_iff_error_finding errValidatorFx (by decide)).1.mpr
      ⟨{ description := "schema violation", category := categoryError }, by decide, rfl⟩
  · exact (hasErrors_iff_error_finding warnValidatorFx (by decide)).2 (by decide)

/-- C5 (code bug): iteration C's `validateSchema` (lint.go lines 780-798)
builds each schema-violation finding without setting `Category`, so the
finding carries the zero severity instead of `SevErr`; iteration A (lines
219-238) sets `SevErr` as the spec requires, with the same bracketed
locator. -/
theorem validateSchemaC_unset_category :
    validateSchemaC (.ok [{ field := "components.1.name"
                            description := "Does not match pattern" }]) =
      .ok [{ yqPath := ".components.[1].name"
             description := "Does not match pattern"
             category := 0 }] ∧
    (0 : Nat) ≠ sevErr ∧
    validateSchemaA (.ok [{ field := "components.1.name"
                            description := "Does not match pattern" }]) =
      .ok [{ yqPath := ".components.[1].name"
             description := "Does not match pattern"
             category := sevErr }] := by
  refine ⟨?_, by decide, ?_⟩ <;> rfl

/-- C6: for component `c` and repo entry `j`, `checkForUnpinnedRepos` emits
exactly one Warning finding with item equal to that repo URL and locator
`.components.[i].repos.[j]` when the URL contains no `@`, and no finding
with that locator when the URL contains `@`. -/
theorem checkForUnpinnedRepos_spec :
    ∀ (c : ZarfComponent) (i j : Nat) (h : j < c.repos.length),
      (strContains (c.repos.get ⟨j, h⟩) "@" = false →
        (checkForUnpinnedRepos c i).count
          (unpinnedRepoFinding i j (c.repos.get ⟨j, h⟩)) = 1) ∧
      (strContains (c.repos.get ⟨j, h⟩) "@" = true →
        ∀ f ∈ checkForUnpinnedRepos c i, f.yqPath ≠ repoYqPath i j) := by
  intro c i j h
  have hs := checkForUnpinnedReposGo_spec c.repos i 0 j h
  simpa [checkForUnpinnedRepos, isPinnedRepo] using hs

/-- C6 (witness): the unpinned repo of the fixture yields exactly one
finding, and the `@`-pinned repo contributes no finding at its locator. -/
theorem checkForUnpinnedRepos_spec_witness :
    (checkForUnpinnedRepos twoReposFx 0).count
      (unpinnedRepoFinding 0 0 "https://github.com/defenseunicorns/zarf-public-test.git") = 1 ∧
    unpinnedRepoFinding 0 1
        "https://dev.azure.com/defenseunicorns/zarf-public-test/_git/zarf-public-test@v0.0.1" ∉
      checkForUnpinnedRepos twoReposFx 0 := by
  constructor
  · exact (checkForUnpinnedRepos_spec twoReposFx 0 0 (by decide)).1 (by decide)
  · intro hmem
    exact (checkForUnpinnedRepos_spec twoReposFx 0 1 (by decide)).2 (by decide) _ hmem rfl

/-- C7: `makeFieldPathYqCompat` returns `"(root)"` unchanged, and on every
dot-joined path of non-empty word-character segments it prepends a dot and
wraps exactly the standalone all-digit segments in brackets. -/
theorem makeFieldPathYqCompat_correct :
    makeFieldPathYqCompat "(root)" = "(root)" ∧
    ∀ segs : List (List Char), segs ≠ [] →
      (∀ seg ∈ segs, seg ≠ [] ∧ ∀ c ∈ seg, isWordChar c = true) →
      makeFieldPathYqCompat ⟨joinDot segs⟩ = ⟨'.' :: joinDot (segs.map wrapSeg)⟩ := by
  constructor
  · rfl
  · intro segs hne hseg
    unfold makeFieldPathYqCompat
    rw [if_neg (joinDot_ne_root hne hseg)]
    have hdata : (⟨joinDot segs⟩ : String).data = joinDot segs := rfl
    rw [hdata, wrapRuns_joinDot segs hne hseg]

/-- C7 (witness): the spec's example path, both through the general theorem
and as a literal evaluation, plus the unchanged root marker. -/
theorem makeFieldPathYqCompat_correct_witness :
    makeFieldPathYqCompat ⟨joinDot segsFx⟩ = ⟨'.' :: joinDot (segsFx.map wrapSeg)⟩ ∧
    makeFieldPathYqCompat "components12.12.import.path" = ".components12.[12].import.path" ∧
    makeFieldPathYqCompat "(root)" = "(root)" := by
  refine ⟨makeFieldPathYqCompat_correct.2 segsFx (by decide) (by decide), by decide,
    makeFieldPathYqCompat_correct.1⟩

/-- C8: `ComposeComponents` consults the chain builder only on components
whose `only.cluster.architecture` and `only.flavor` have been cleared to the
empty string: its result is unchanged when the chain builder is replaced by
any function agreeing with it on cleared components. -/
theorem composeComponents_clears_before_chain :
    ∀ (ops : ComposerOps)
      (g : ZarfComponent → Nat → String → String → String → Except String (List Node))
      (pkg : ZarfPackage) (flavor : String),
      (∀ c i n a fl, c.only.cluster.architecture = "" → c.only.flavor = "" →
        ops.newImportChain c i n a fl = g c i n a fl) →
      composeComponents ops pkg flavor =
        composeComponents { ops with newImportChain := g } pkg flavor := by
  intro ops g pkg flavor h
  unfold composeComponents
  rw [composeComponentsGo_builder_agree pkg.components ops g pkg.metadata.name
    pkg.metadata.architecture flavor pkg.build 0 [] [] pkg.variables pkg.constants h]

/-- C8 (witness): composing the fixture package — whose only component
carries a matching architecture constraint — gives the same result under a
chain builder that fails on any component whose constraints are not cleared. -/
theorem composeComponents_clears_before_chain_witness :
    composeComponents composerOpsFx pkgComposeFx "" =
      composeComponents { composerOpsFx with newImportChain := clearedOnlyChainBuilderFx }
        pkgComposeFx "" := by
  exact composeComponents_clears_before_chain composerOpsFx clearedOnlyChainBuilderFx
    pkgComposeFx ""
    (fun c i n a fl h1 h2 => by simp [clearedOnlyChainBuilderFx, h1, h2])

/-- C9: after any sequence of `addWarning`/`addError` calls the findings list
contains no two fully equal findings, and adding a finding whose full value
(with the category the operation assigns) is already present leaves the list
unchanged. -/
theorem validator_findings_dedup :
    ∀ (ops : List VOp) (m : validatorMessage),
      (runVOps ops).findings.Nodup ∧
      ({ m with category := categoryWarning } ∈ (runVOps ops).findings →
        ((runVOps ops).addWarning m).findings = (runVOps ops).findings) ∧
      ({ m with category := categoryError } ∈ (runVOps ops).findings →
        ((runVOps ops).addError m).findings = (runVOps ops).findings) := by
  intro ops m
  have hnd : (runVOps ops).findings.Nodup :=
    runVOps_nodup_aux ops {} List.nodup_nil
  refine ⟨hnd, ?_, ?_⟩
  · intro hmem
    simp only [Validator.addWarning]
    exact unique_append_mem hnd hmem
  · intro hmem
    simp only [Validator.addError]
    exact unique_append_mem hnd hmem

/-- C9 (witness): a sequence that adds the same message twice as a warning
ends with a duplicate-free list, and re-adding the already-present warning
leaves the findings unchanged. -/
theorem validator_findings_dedup_witness :
    (runVOps vopsFx).findings.Nodup ∧
    ((runVOps vopsFx).addWarning vmsgFx).findings = (runVOps vopsFx).findings := by
  have h := validator_findings_dedup vopsFx vmsgFx
  exact ⟨h.1, h.2.1 (by decide)⟩

/-- C10: whenever `ComposeComponents` succeeds, the returned package keeps
the input package's `Kind`, `Metadata` and `Build` unchanged — only
`Components`, `Variables` and `Constants` may differ. -/
theorem composeComponents_frame :
    ∀ (ops : ComposerOps) (pkg : ZarfPackage) (flavor : String)
      (pkg2 : ZarfPackage) (ws : List String),
      composeComponents ops pkg flavor = .ok (pkg2, ws) →
      pkg2.kind = pkg.kind ∧ pkg2.metadata = pkg.metadata ∧ pkg2.build = pkg.build := by
  intro ops pkg flavor pkg2 ws h
  unfold composeComponents at h
  cases hgo : composeComponentsGo ops pkg.metadata.name pkg.metadata.architecture flavor
      pkg.build 0 pkg.components [] [] pkg.variables pkg.constants with
  | error e => rw [hgo] at h; cases h
  | ok res =>
    rw [hgo] at h
    obtain ⟨comps, warnings, vars, consts⟩ := res
    simp only [Except.ok.injEq, Prod.mk.injEq] at h
    obtain ⟨hpkg, _⟩ := h
    rw [← hpkg]
    exact ⟨rfl, rfl, rfl⟩

/-- C10 (witness): composing the fixture package succeeds and the output
package keeps the input's kind, metadata and build. -/
theorem composeComponents_frame_witness :
    composeComponents composerOpsFx pkgComposeFx "" = .ok (pkgComposeOutFx, []) ∧
    (pkgComposeOutFx.kind = pkgComposeFx.kind ∧
      pkgComposeOutFx.metadata = pkgComposeFx.metadata ∧
      pkgComposeOutFx.build = pkgComposeFx.build) := by
  refine ⟨rfl, ?_⟩
  exact composeComponents_frame composerOpsFx pkgComposeFx "" pkgComposeOutFx [] rfl
